import Mathlib

/-!
# hwstl, Arduino Due target (`src/target/arduino-due.hpp`)

A shallow embedding of the pin table, the bitmask aggregation, the per-pin
operations, the prescaler/baud arithmetic and the UART enable sequence.

Conventions:
* `uint8_t`/`uint32_t` values are `Nat`; a stored register value is reduced
  modulo `2^32`. `int32_t` results are `Int`.
* An operation whose C++ behaviour is not defined (a table index past the
  end, a shift by 32 or more, a division by zero, a write through `nullptr`,
  a failed `static_assert`) yields `none`.
* Memory-mapped registers are a map from register to value together with the
  list of writes performed so far, in program order.
* The polling loops of `putc` and `getc` run over the list of values that
  successive reads of the status register return.
* `Device.loopback` and `Device.clockGate` are harnesses that link the pin
  data status to the set/clear output registers, and the peripheral clock
  status to the clock enable/disable registers.
-/

namespace hwstl
namespace arduino_due

/-! ## Pin table and resolver -/

namespace pin

/-- One entry of the pin table: bank id and bit inside the bank. -/
structure pin_info where
  m_port : Nat
  m_pin : Nat
  deriving DecidableEq, Repr

/-- The table `pin_info_array[21]`, entries d0 .. d20. -/
def pin_info_array : List pin_info :=
  [ ⟨0, 8⟩, ⟨0, 9⟩, ⟨1, 25⟩, ⟨2, 28⟩, ⟨2, 26⟩, ⟨2, 25⟩, ⟨2, 24⟩, ⟨2, 23⟩,
    ⟨2, 22⟩, ⟨2, 21⟩, ⟨2, 29⟩,
    ⟨3, 7⟩, ⟨3, 8⟩, ⟨1, 27⟩, ⟨3, 4⟩, ⟨3, 5⟩, ⟨0, 13⟩, ⟨0, 12⟩, ⟨0, 11⟩,
    ⟨0, 10⟩, ⟨1, 12⟩ ]

/-- A `Pio*` value: one of the four register groups, or `nullptr`. -/
inductive PioPtr where
  | PIOA | PIOB | PIOC | PIOD | nullptr
  deriving DecidableEq, Repr

/-- `GetPortByPin<t_pin>()`; `none` when `t_pin` indexes past the table. -/
def GetPortByPin (t_pin : Nat) : Option PioPtr :=
  match pin_info_array[t_pin]? with
  | none => none
  | some e =>
    let port := e.m_port
    if port = 0 then some PioPtr.PIOA
    else if port = 1 then some PioPtr.PIOB
    else if port = 2 then some PioPtr.PIOC
    else if port = 3 then some PioPtr.PIOD
    else some PioPtr.nullptr

/-- `GetPinInPort<t_pin>()`; `none` when `t_pin` indexes past the table. -/
def GetPinInPort (t_pin : Nat) : Option Nat :=
  match pin_info_array[t_pin]? with
  | none => none
  | some e => some e.m_pin

/-- `GetPinMask<t_pin>()`, that is `1 << GetPinInPort<t_pin>()` as a
`uint32_t`; a shift count of 32 or more has no defined result. -/
def GetPinMask (t_pin : Nat) : Option Nat :=
  match GetPinInPort t_pin with
  | none => none
  | some n => if n < 32 then some ((1 <<< n) % 2 ^ 32) else none

/-- The local array `uint32_t masks[4]`. -/
structure Masks where
  m0 : Nat
  m1 : Nat
  m2 : Nat
  m3 : Nat
  deriving DecidableEq, Repr

/-- Reading `masks[i]`. -/
def Masks.get (m : Masks) (i : Nat) : Nat :=
  if i = 0 then m.m0 else if i = 1 then m.m1 else if i = 2 then m.m2
  else if i = 3 then m.m3 else 0

/-- The initialiser `uint32_t masks[4] = {}`. -/
def Masks.zero : Masks := ⟨0, 0, 0, 0⟩

/-- `ProcessPinEntry<t_pin>(masks)`: OR the pin mask into the mask of the
bank of the pin; a bank id outside 0..3 leaves the masks as they are. -/
def ProcessPinEntry (t_pin : Nat) (masks : Masks) : Option Masks :=
  match pin_info_array[t_pin]? with
  | none => none
  | some e =>
    let port := e.m_port
    if port = 0 then
      (GetPinMask t_pin).map (fun m => { masks with m0 := masks.m0 ||| m })
    else if port = 1 then
      (GetPinMask t_pin).map (fun m => { masks with m1 := masks.m1 ||| m })
    else if port = 2 then
      (GetPinMask t_pin).map (fun m => { masks with m2 := masks.m2 ||| m })
    else if port = 3 then
      (GetPinMask t_pin).map (fun m => { masks with m3 := masks.m3 ||| m })
    else some masks

/-- The fold `(ProcessPinEntry<vt_pins>(masks), ...)` of `PinSequenceEnable`,
left to right over the pin sequence, from the given masks. -/
def ProcessPinEntries : List Nat → Masks → Option Masks
  | [], masks => some masks
  | p :: ps, masks =>
    match ProcessPinEntry p masks with
    | none => none
    | some masks1 => ProcessPinEntries ps masks1

end pin

/-! ## Memory-mapped registers -/

/-- The registers of a `Pio` group that the code touches. -/
inductive PioReg where
  | PIO_PER | PIO_PDR | PIO_OER | PIO_SODR | PIO_CODR | PIO_PDSR
  | PIO_PUER | PIO_PUDR | PIO_ABSR
  deriving DecidableEq, Repr

/-- The registers of a `Uart` that the code touches. -/
inductive UartReg where
  | UART_CR | UART_MR | UART_IDR | UART_SR | UART_RHR | UART_THR | UART_BRGR
  deriving DecidableEq, Repr

/-- A `Uart*` value, identified by the instance it points to. -/
abbrev UartPtr := Nat

/-- The global `UART`. -/
def UART : UartPtr := 0

/-- A register: a field of a `Pio` group, `PMC->PMC_PCER0`, a field of a
`Uart` instance, or one of the two `PMC` registers next to `PMC_PCER0` that
the code never names: the peripheral clock disable register `PMC_PCDR0` and
the peripheral clock status register `PMC_PCSR0`. -/
inductive Reg where
  | pio (port : pin.PioPtr) (r : PioReg)
  | PMC_PCER0
  | uart (u : UartPtr) (r : UartReg)
  | PMC_PCDR0
  | PMC_PCSR0
  deriving DecidableEq, Repr

/-- Register contents together with the writes performed so far, oldest
first. -/
structure Machine where
  mem : Reg → Nat
  log : List (Reg × Nat)

/-- The effect of a write of a value to a register on the contents that
later reads return. -/
abbrev Device := Reg → Nat → (Reg → Nat) → (Reg → Nat)

/-- Plain storage: a register holds the last value written to it. -/
def Device.plain : Device :=
  fun r v mem => Function.update mem r v

/-- Loopback harness: a write of a mask to `PIO_SODR` sets these bits in
`PIO_PDSR` of the same group, a write to `PIO_CODR` clears them; every
other register is plain storage. -/
def Device.loopback : Device :=
  fun r v mem =>
    match r with
    | Reg.pio port PioReg.PIO_SODR =>
      Function.update mem (Reg.pio port PioReg.PIO_PDSR)
        (mem (Reg.pio port PioReg.PIO_PDSR) ||| v)
    | Reg.pio port PioReg.PIO_CODR =>
      Function.update mem (Reg.pio port PioReg.PIO_PDSR)
        (mem (Reg.pio port PioReg.PIO_PDSR) ^^^
          (mem (Reg.pio port PioReg.PIO_PDSR) &&& v))
    | _ => Function.update mem r v

/-- A 32-bit store to a register. -/
def write (dev : Device) (r : Reg) (v : Nat) (s : Machine) : Machine :=
  { mem := dev r (v % 2 ^ 32) s.mem, log := s.log ++ [(r, v % 2 ^ 32)] }

/-- A load from a register. -/
def read (r : Reg) (s : Machine) : Nat := s.mem r

/-- Constants of the vendor header `sam3x8e.h`, which is not among the
sources: they are parameters of the operations that use them. -/
structure VendorConstants where
  ID_PIOA : Nat
  ID_UART : Nat
  PIO_PA8 : Nat
  PIO_PA9 : Nat
  UART_CR_RSTRX : Nat
  UART_CR_RSTTX : Nat
  UART_CR_RXEN : Nat
  UART_CR_RXDIS : Nat
  UART_CR_TXEN : Nat
  UART_CR_TXDIS : Nat
  UART_MR_PAR_NO : Nat

/-- `debug_assert(assertion_success, error)`: with `DEBUG` the body is an
`if` around a comment, without it the body is empty. -/
def debug_assert (DEBUG : Bool) (assertion_success : Bool) (s : Machine) :
    Machine :=
  if DEBUG then (if !assertion_success then s else s) else s

/-! ## Pin operations -/

namespace pin

/-- `PinSequenceEnable(pins)`. -/
def PinSequenceEnable (dev : Device) (pins : List Nat) (s : Machine) :
    Option Machine :=
  match ProcessPinEntries pins Masks.zero with
  | none => none
  | some masks =>
    let pmc0_enable := 0
    let (pmc0_enable, s) :=
      if masks.m0 ≠ 0 then
        (pmc0_enable ||| (1 <<< 11),
          write dev (Reg.pio PioPtr.PIOA PioReg.PIO_OER) masks.m0
            (write dev (Reg.pio PioPtr.PIOA PioReg.PIO_PER) masks.m0 s))
      else (pmc0_enable, s)
    let (pmc0_enable, s) :=
      if masks.m1 ≠ 0 then
        (pmc0_enable ||| (1 <<< 12),
          write dev (Reg.pio PioPtr.PIOB PioReg.PIO_OER) masks.m1
            (write dev (Reg.pio PioPtr.PIOB PioReg.PIO_PER) masks.m1 s))
      else (pmc0_enable, s)
    let (pmc0_enable, s) :=
      if masks.m2 ≠ 0 then
        (pmc0_enable ||| (1 <<< 13),
          write dev (Reg.pio PioPtr.PIOC PioReg.PIO_OER) masks.m2
            (write dev (Reg.pio PioPtr.PIOC PioReg.PIO_PER) masks.m2 s))
      else (pmc0_enable, s)
    let (pmc0_enable, s) :=
      if masks.m3 ≠ 0 then
        (pmc0_enable ||| (1 <<< 14),
          write dev (Reg.pio PioPtr.PIOD PioReg.PIO_OER) masks.m3
            (write dev (Reg.pio PioPtr.PIOD PioReg.PIO_PER) masks.m3 s))
      else (pmc0_enable, s)
    some (write dev Reg.PMC_PCER0 pmc0_enable s)

/-- `pin_impl<t_pin>::set(v)`. -/
def pin_impl.set (dev : Device) (t_pin : Nat) (v : Bool) (s : Machine) :
    Option Machine :=
  match GetPortByPin t_pin, GetPinMask t_pin with
  | some port, some mask =>
    if port = PioPtr.nullptr then none
    else
      some (write dev
        (Reg.pio port (if v then PioReg.PIO_SODR else PioReg.PIO_CODR)) mask s)
  | _, _ => none

/-- `pin_impl<t_pin>::get()`. -/
def pin_impl.get (t_pin : Nat) (s : Machine) : Option Bool :=
  match GetPortByPin t_pin, GetPinMask t_pin with
  | some port, some mask =>
    if port = PioPtr.nullptr then none
    else some (decide (read (Reg.pio port PioReg.PIO_PDSR) s &&& mask ≠ 0))
  | _, _ => none

end pin

/-! ## Prescaler and baud arithmetic -/

/-- The constant `MainClockFrequency`. -/
def MainClockFrequency : Nat := 84000000

namespace uart_util

/-- Conversion of an `int32_t` to `uint32_t` (implicit at a call). -/
def toUInt32 (i : Int) : Nat := (i % 2 ^ 32).toNat

/-- `FromFrequencyToPrescalerSelector(main_clock_frequency)`. -/
def FromFrequencyToPrescalerSelector (main_clock_frequency : Nat) : Int :=
  if main_clock_frequency = MainClockFrequency then 0
  else if main_clock_frequency = MainClockFrequency / 2 then 1
  else if main_clock_frequency = MainClockFrequency / 4 then 2
  else if main_clock_frequency = MainClockFrequency / 8 then 3
  else if main_clock_frequency = MainClockFrequency / 16 then 4
  else if main_clock_frequency = MainClockFrequency / 32 then 5
  else if main_clock_frequency = MainClockFrequency / 64 then 6
  else if main_clock_frequency = MainClockFrequency / 3 then 7
  else -1

/-- `FromPrescalerSelectorToFrequency(prescaler_selection)`. -/
def FromPrescalerSelectorToFrequency (prescaler_selection : Nat) : Int :=
  if prescaler_selection = 0 then (MainClockFrequency : Int)
  else if prescaler_selection = 1 then ((MainClockFrequency / 2 : Nat) : Int)
  else if prescaler_selection = 2 then ((MainClockFrequency / 4 : Nat) : Int)
  else if prescaler_selection = 3 then ((MainClockFrequency / 8 : Nat) : Int)
  else if prescaler_selection = 4 then ((MainClockFrequency / 16 : Nat) : Int)
  else if prescaler_selection = 5 then ((MainClockFrequency / 32 : Nat) : Int)
  else if prescaler_selection = 6 then ((MainClockFrequency / 64 : Nat) : Int)
  else if prescaler_selection = 7 then ((MainClockFrequency / 3 : Nat) : Int)
  else -1

/-- `IsValidBaudrate(baudrate)`: the low four bits are zero. -/
def IsValidBaudrate (baudrate : Nat) : Bool :=
  (baudrate &&& 0b1111) == 0

/-- `CalculateDivider(master_clock_frequency, baudrate)`; dividing by a
zero baud rate has no defined result. -/
def CalculateDivider (master_clock_frequency baudrate : Nat) : Option Nat :=
  if baudrate = 0 then none
  else some ((master_clock_frequency / baudrate) / 16)

/-- `EnableBaud<t_master_clock_frequency, t_baudrate>(uart)`: both values
are template arguments, checked by `static_assert`. -/
def EnableBaud (dev : Device) (t_master_clock_frequency t_baudrate : Nat)
    (uart : UartPtr) (s : Machine) : Option Machine :=
  if FromFrequencyToPrescalerSelector t_master_clock_frequency = -1 then none
  else if IsValidBaudrate t_baudrate = false then none
  else
    match CalculateDivider t_master_clock_frequency t_baudrate with
    | none => none
    | some cd => some (write dev (Reg.uart uart UartReg.UART_BRGR) cd s)

/-- `DisableBaud(uart)`. -/
def DisableBaud (dev : Device) (uart : UartPtr) (s : Machine) : Machine :=
  write dev (Reg.uart uart UartReg.UART_BRGR) 0 s

/-- `ResetTRX<Uart*>(uart)`. -/
def ResetTRX (k : VendorConstants) (dev : Device) (uart : UartPtr)
    (s : Machine) : Machine :=
  write dev (Reg.uart uart UartReg.UART_CR)
    (k.UART_CR_RSTRX ||| k.UART_CR_RSTTX ||| k.UART_CR_RXDIS |||
      k.UART_CR_TXDIS) s

/-- `EnableTRX<Uart*>(uart)`. -/
def EnableTRX (k : VendorConstants) (dev : Device) (uart : UartPtr)
    (s : Machine) : Machine :=
  write dev (Reg.uart uart UartReg.UART_CR)
    (k.UART_CR_RXEN ||| k.UART_CR_TXEN) s

end uart_util

/-! ## The primary UART controller -/

namespace uart_impl

/-- `uart_impl<uart_io::uart>::Enable()`. -/
def Enable (k : VendorConstants) (dev : Device) (s : Machine) :
    Option Machine :=
  let s := write dev Reg.PMC_PCER0 (1 <<< k.ID_PIOA) s
  let s := write dev (Reg.pio pin.PioPtr.PIOA PioReg.PIO_PDR) k.PIO_PA8 s
  let s := write dev (Reg.pio pin.PioPtr.PIOA PioReg.PIO_ABSR)
    (read (Reg.pio pin.PioPtr.PIOA PioReg.PIO_ABSR) s &&&
      (0xFFFFFFFF - k.PIO_PA8 % 2 ^ 32)) s
  let s := write dev (Reg.pio pin.PioPtr.PIOA PioReg.PIO_PDR) k.PIO_PA9 s
  let s := write dev (Reg.pio pin.PioPtr.PIOA PioReg.PIO_ABSR)
    (read (Reg.pio pin.PioPtr.PIOA PioReg.PIO_ABSR) s &&&
      (0xFFFFFFFF - k.PIO_PA9 % 2 ^ 32)) s
  let s := write dev Reg.PMC_PCER0 (0x01 <<< k.ID_UART) s
  let s := uart_util.ResetTRX k dev UART s
  match uart_util.EnableBaud dev MainClockFrequency 115200 UART s with
  | none => none
  | some s =>
    let s := write dev (Reg.uart UART UartReg.UART_MR) k.UART_MR_PAR_NO s
    let s := write dev (Reg.uart UART UartReg.UART_IDR) 0xFFFFFFFF s
    some (uart_util.EnableTRX k dev UART s)

end uart_impl

/-! ## Further pin operations and the aggregation stated on the pin list -/

namespace pin

/-- `pin_impl<t_pin>::enable_pullup()`. -/
def pin_impl.enable_pullup (dev : Device) (t_pin : Nat) (s : Machine) :
    Option Machine :=
  match GetPortByPin t_pin, GetPinMask t_pin with
  | some port, some mask =>
    if port = PioPtr.nullptr then none
    else some (write dev (Reg.pio port PioReg.PIO_PUER) mask s)
  | _, _ => none

/-- `pin_impl<t_pin>::disable_pullup()`. -/
def pin_impl.disable_pullup (dev : Device) (t_pin : Nat) (s : Machine) :
    Option Machine :=
  match GetPortByPin t_pin, GetPinMask t_pin with
  | some port, some mask =>
    if port = PioPtr.nullptr then none
    else some (write dev (Reg.pio port PioReg.PIO_PUDR) mask s)
  | _, _ => none

/-- The aggregated mask of bank `b` in the words of the specification: the
OR of `1 << bit_in_bank` over the listed pins that resolve to bank `b`. -/
def aggregatedMask (b : Nat) : List Nat → Nat
  | [] => 0
  | p :: ps =>
    match pin_info_array[p]? with
    | some e =>
      if e.m_port = b then (1 <<< e.m_pin) ||| aggregatedMask b ps
      else aggregatedMask b ps
    | none => aggregatedMask b ps

/-- Whether at least one listed pin resolves to bank `b`. -/
def bankTouched (b : Nat) (pins : List Nat) : Bool :=
  pins.any (fun p =>
    match pin_info_array[p]? with
    | some e => decide (e.m_port = b)
    | none => false)

/-- The clock-gate mask in the words of the specification: the OR of
`1 << (11 + b)` over the banks `b` in 0..3 that have a listed pin. -/
def clockGateMask (pins : List Nat) : Nat :=
  [0, 1, 2, 3].foldr
    (fun b acc => if bankTouched b pins then (1 <<< (11 + b)) ||| acc else acc) 0

/-- Whether a register belongs to the given `Pio` group. -/
def inGroup (port : PioPtr) (r : Reg) : Bool :=
  match r with
  | Reg.pio q _ => decide (q = port)
  | _ => false

/-- The two writes `PinSequenceEnable` performs on a group whose mask is not
zero: the mask to `PIO_PER`, then the mask to `PIO_OER`. -/
def groupWrites (port : PioPtr) (mask : Nat) : List (Reg × Nat) :=
  if mask ≠ 0 then
    [(Reg.pio port PioReg.PIO_PER, mask), (Reg.pio port PioReg.PIO_OER, mask)]
  else []

end pin

/-! ## Run-time baud programming and the blocking character operations -/

namespace uart_util

/-- `EnableBaud(uart, master_clock_frequency, baudrate)`: both values are
run-time arguments, passed to `debug_assert`. -/
def EnableBaud_runtime (DEBUG : Bool) (dev : Device) (uart : UartPtr)
    (master_clock_frequency baudrate : Nat) (s : Machine) : Option Machine :=
  let s := debug_assert DEBUG
    (decide (FromFrequencyToPrescalerSelector master_clock_frequency ≠ -1)) s
  let s := debug_assert DEBUG (IsValidBaudrate baudrate) s
  match CalculateDivider master_clock_frequency baudrate with
  | none => none
  | some cd => some (write dev (Reg.uart uart UartReg.UART_BRGR) cd s)

end uart_util

namespace uart_impl

/-- `uart_impl<uart_io::uart>::putc(c)`. The list holds the values that
successive reads of `UART_SR` return. The result is the list of status
values read before the store to `UART_THR`, and the value stored; `none`
when the loop is still polling after the listed reads. -/
def putc (c : Nat) : List Nat → Option (List Nat × Nat)
  | [] => none
  | sr :: rest =>
    if (sr &&& 2) = 0 then
      match putc c rest with
      | none => none
      | some (reads, v) => some (sr :: reads, v)
    else some ([sr], c % 256)

/-- `uart_impl<uart_io::uart>::getc()`. The list holds the values that
successive reads of `UART_SR` return, `rhr` is what `UART_RHR` returns. The
result is the list of status values read before the load of `UART_RHR`, and
the character returned; `none` when the loop is still polling after the
listed reads. -/
def getc (rhr : Nat) : List Nat → Option (List Nat × Nat)
  | [] => none
  | sr :: rest =>
    if (sr &&& 1) = 1 then
      match getc rhr rest with
      | none => none
      | some (reads, c) => some (sr :: reads, c)
    else some ([sr], rhr % 256)

end uart_impl

/-! ## Pin direction entry points, clock gating, character length -/

namespace pin

/-- `configure_in(pins)`. -/
def configure_in (dev : Device) (pins : List Nat) (s : Machine) :
    Option Machine :=
  PinSequenceEnable dev pins s

/-- `configure_out(pins)`. -/
def configure_out (dev : Device) (pins : List Nat) (s : Machine) :
    Option Machine :=
  PinSequenceEnable dev pins s

/-- `configure_inout(pins)`. -/
def configure_inout (dev : Device) (pins : List Nat) (s : Machine) :
    Option Machine :=
  PinSequenceEnable dev pins s

end pin

/-- Clock gating harness: a write of a mask to `PMC_PCER0` sets these bits
in `PMC_PCSR0`, a write to `PMC_PCDR0` clears them; every other register is
plain storage. -/
def Device.clockGate : Device :=
  fun r v mem =>
    match r with
    | Reg.PMC_PCER0 =>
      Function.update mem Reg.PMC_PCSR0 (mem Reg.PMC_PCSR0 ||| v)
    | Reg.PMC_PCDR0 =>
      Function.update mem Reg.PMC_PCSR0
        (mem Reg.PMC_PCSR0 ^^^ (mem Reg.PMC_PCSR0 &&& v))
    | _ => Function.update mem r v

namespace uart_util

/-- The class `CharacterLength`: the bit-field `unsigned charLength : 3`. -/
structure CharacterLength where
  charLength : Nat
  deriving DecidableEq, Repr

/-- The constructor `CharacterLength()`. -/
def CharacterLength.default : CharacterLength := ⟨5 % 2 ^ 3⟩

/-- The constructor `CharacterLength(uint8_t charLength)`: the argument is
stored in the three bits of the field. -/
def CharacterLength.ofUInt8 (charLength : Nat) : CharacterLength :=
  ⟨(charLength % 2 ^ 8) % 2 ^ 3⟩

/-- `GetCharacterLength(bits)`. -/
def GetCharacterLength (bits : Nat) : Int :=
  if bits = 5 then 0
  else if bits = 6 then 1
  else if bits = 7 then 2
  else if bits = 8 then 3
  else if bits = 9 then 4
  else -1

/-- `EnableBaud<t_master_clock_frequency, t_type, t_uart>(uart, baudrate)`:
the frequency is a template argument checked by `static_assert`, the baud
rate a run-time argument passed to `debug_assert`; the store goes through
the template argument `t_uart`. -/
def EnableBaud_baud (DEBUG : Bool) (dev : Device)
    (t_master_clock_frequency : Nat) (t_uart : UartPtr) (uart : UartPtr)
    (baudrate : Nat) (s : Machine) : Option Machine :=
  if FromFrequencyToPrescalerSelector t_master_clock_frequency = -1 then none
  else
    let _ := uart
    let s := debug_assert DEBUG (IsValidBaudrate baudrate) s
    match CalculateDivider t_master_clock_frequency baudrate with
    | none => none
    | some cd => some (write dev (Reg.uart t_uart UartReg.UART_BRGR) cd s)

end uart_util

namespace uart_impl

/-- `uart_impl<uart_io::uart>::Disable()`. -/
def Disable (k : VendorConstants) (dev : Device) (s : Machine) : Machine :=
  let s := write dev (Reg.pio pin.PioPtr.PIOA PioReg.PIO_PDR) k.PIO_PA8 s
  let s := write dev (Reg.pio pin.PioPtr.PIOA PioReg.PIO_PDR) k.PIO_PA9 s
  write dev Reg.PMC_PCER0 (0x01 <<< k.ID_UART) s

end uart_impl

/-! ## Theorems -/

open pin uart_util

/-- C1: every entry of the pin table has a bank id in 0..3, and two distinct
pin indices of the table with the same bank id have different bits in the
bank. -/
theorem pin_table_banks_and_no_alias :
    (∀ p, p < 21 → ∃ e, pin_info_array[p]? = some e ∧ e.m_port ∈ [0, 1, 2, 3]) ∧
    (∀ p q, p < 21 → q < 21 → p ≠ q →
      ∀ e f, pin_info_array[p]? = some e → pin_info_array[q]? = some f →
        e.m_port = f.m_port → e.m_pin ≠ f.m_pin) := by
  constructor
  · intro p hp
    interval_cases p <;> exact ⟨_, rfl, by decide⟩
  · intro p q hp hq hpq e f he hf
    interval_cases p <;> interval_cases q <;>
      first
      | exact absurd rfl hpq
      | (simp only [pin_info_array, List.getElem?_cons_succ,
          List.getElem?_cons_zero, Option.some.injEq] at he hf
         subst he hf
         decide)

/-- Witness of C1 at the pins 2 and 13, both in bank 1. -/
theorem pin_table_banks_and_no_alias_witness :
    (∃ e, pin_info_array[2]? = some e ∧ e.m_port ∈ [0, 1, 2, 3]) ∧
    (pin_info.mk 1 25).m_pin ≠ (pin_info.mk 1 27).m_pin :=
  ⟨pin_table_banks_and_no_alias.1 2 (by decide),
   pin_table_banks_and_no_alias.2 2 13 (by decide) (by decide) (by decide)
     ⟨1, 25⟩ ⟨1, 27⟩ rfl rfl rfl⟩

/-- Every table entry has a bank id below 4 and a bit below 32. -/
theorem pin_info_array_bounds (p : Nat) (e : pin_info)
    (he : pin_info_array[p]? = some e) : e.m_port < 4 ∧ e.m_pin < 32 := by
  have hall : ∀ x ∈ pin_info_array, x.m_port < 4 ∧ x.m_pin < 32 := by decide
  exact hall e (List.getElem?_mem he)

/-- The mask of a table pin is the single bit of its entry. -/
theorem GetPinMask_of_entry (p : Nat) (e : pin_info)
    (he : pin_info_array[p]? = some e) : GetPinMask p = some (2 ^ e.m_pin) := by
  have hb := (pin_info_array_bounds p e he).2
  have hlt : 2 ^ e.m_pin < 2 ^ 32 := Nat.pow_lt_pow_right (by decide) hb
  simp only [GetPinMask, GetPinInPort, he, hb, if_true, Nat.shiftLeft_eq,
    Nat.one_mul, Nat.mod_eq_of_lt hlt]

/-- One step of the aggregation on a table pin: the mask of the pin is
ORed into the mask of its bank, the other three masks are kept. -/
theorem ProcessPinEntry_of_entry (p : Nat) (e : pin_info) (masks : Masks)
    (he : pin_info_array[p]? = some e) :
    ∃ masks1, ProcessPinEntry p masks = some masks1 ∧
      masks1.get e.m_port = masks.get e.m_port ||| 2 ^ e.m_pin ∧
      ∀ b, b ≠ e.m_port → masks1.get b = masks.get b := by
  have hm := GetPinMask_of_entry p e he
  have hb := (pin_info_array_bounds p e he).1
  obtain ⟨port, bit⟩ := e
  simp only at hb hm ⊢
  interval_cases port
  · refine ⟨{ masks with m0 := masks.m0 ||| 2 ^ bit }, ?_, ?_, ?_⟩
    · simp [ProcessPinEntry, he, hm]
    · simp [Masks.get]
    · intro b hb0; simp [Masks.get, hb0]
  · refine ⟨{ masks with m1 := masks.m1 ||| 2 ^ bit }, ?_, ?_, ?_⟩
    · simp [ProcessPinEntry, he, hm]
    · simp [Masks.get]
    · intro b hb0; simp [Masks.get, hb0]
  · refine ⟨{ masks with m2 := masks.m2 ||| 2 ^ bit }, ?_, ?_, ?_⟩
    · simp [ProcessPinEntry, he, hm]
    · simp [Masks.get]
    · intro b hb0; simp [Masks.get, hb0]
  · refine ⟨{ masks with m3 := masks.m3 ||| 2 ^ bit }, ?_, ?_, ?_⟩
    · simp [ProcessPinEntry, he, hm]
    · simp [Masks.get]
    · intro b hb0; simp [Masks.get, hb0]

/-- A left fold of bitwise OR is zero only from a zero start over zeros. -/
theorem foldl_lor_eq_zero (ms : List Nat) (a : Nat) :
    ms.foldl (· ||| ·) a = 0 ↔ a = 0 ∧ ∀ m ∈ ms, m = 0 := by
  induction ms generalizing a with
  | nil => simp
  | cons m ms ih =>
    simp only [List.foldl_cons, ih, List.mem_cons, forall_eq_or_imp]
    constructor
    · rintro ⟨h, hr⟩
      have h1 : a = 0 := by
        apply Nat.eq_of_testBit_eq; intro i
        have := congrArg (fun x => x.testBit i) h
        simp only [Nat.testBit_or, Nat.zero_testBit, Bool.or_eq_false_iff] at this
        simpa using this.1
      have h2 : m = 0 := by
        apply Nat.eq_of_testBit_eq; intro i
        have := congrArg (fun x => x.testBit i) h
        simp only [Nat.testBit_or, Nat.zero_testBit, Bool.or_eq_false_iff] at this
        simpa using this.2
      exact ⟨h1, h2, hr⟩
    · rintro ⟨h1, h2, hr⟩
      subst h1 h2
      exact ⟨by simp, hr⟩

/-- The aggregation over table pins of one bank, from any masks. -/
theorem ProcessPinEntries_bank (pins : List Nat) (b : Nat) (masks0 : Masks)
    (hb : ∀ p ∈ pins, ∃ e, pin_info_array[p]? = some e ∧ e.m_port = b) :
    ∃ masks ms, ProcessPinEntries pins masks0 = some masks ∧
      List.Forall₂ (fun p m => GetPinMask p = some m ∧ m ≠ 0) pins ms ∧
      masks.get b = ms.foldl (· ||| ·) (masks0.get b) ∧
      ∀ c, c ≠ b → masks.get c = masks0.get c := by
  induction pins generalizing masks0 with
  | nil => exact ⟨masks0, [], rfl, List.Forall₂.nil, rfl, fun _ _ => rfl⟩
  | cons p ps ih =>
    obtain ⟨e, he, heb⟩ := hb p (List.mem_cons_self _ _)
    obtain ⟨masks1, h1, h1b, h1o⟩ := ProcessPinEntry_of_entry p e masks0 he
    obtain ⟨masks, ms, h2, hf, h2b, h2o⟩ :=
      ih masks1 (fun q hq => hb q (List.mem_cons_of_mem _ hq))
    refine ⟨masks, 2 ^ e.m_pin :: ms, ?_, ?_, ?_, ?_⟩
    · simp [ProcessPinEntries, h1, h2]
    · exact List.Forall₂.cons ⟨GetPinMask_of_entry p e he, by positivity⟩ hf
    · rw [h2b, List.foldl_cons, ← heb, h1b]
    · intro c hc
      rw [h2o c hc, h1o c (heb ▸ hc)]

/-- C2: folding `ProcessPinEntry` from all-zero masks over a non-empty list
of table pins that all lie in bank `b` gives masks whose entry `b` is the
bitwise OR of the `GetPinMask` values of the listed pins and is not zero,
while the entries of the other three banks are zero. -/
theorem ProcessPinEntries_same_bank (pins : List Nat) (b : Nat)
    (hne : pins ≠ [])
    (hb : ∀ p ∈ pins, p < 21 ∧ ∃ e, pin_info_array[p]? = some e ∧ e.m_port = b) :
    ∃ masks ms, ProcessPinEntries pins Masks.zero = some masks ∧
      List.Forall₂ (fun p m => GetPinMask p = some m) pins ms ∧
      masks.get b = ms.foldl (· ||| ·) 0 ∧ masks.get b ≠ 0 ∧
      ∀ c, c < 4 → c ≠ b → masks.get c = 0 := by
  obtain ⟨masks, ms, hrun, hf, hbank, hother⟩ :=
    ProcessPinEntries_bank pins b Masks.zero (fun p hp => (hb p hp).2)
  have hz : ∀ c, Masks.zero.get c = 0 := by
    intro c; simp only [Masks.get, Masks.zero]; split_ifs <;> rfl
  rw [hz] at hbank
  refine ⟨masks, ms, hrun, List.Forall₂.imp (fun _ _ h => h.1) hf, hbank, ?_, ?_⟩
  · rw [hbank]
    intro h0
    have hall := ((foldl_lor_eq_zero ms 0).1 h0).2
    cases hf with
    | nil => exact hne rfl
    | cons h _ => exact h.2 (hall _ (List.mem_cons_self _ _))
  · intro c _ hc
    rw [hother c hc, hz]

/-- Witness of C2 at the pins 2, 13 and 20, the three pins of bank 1. -/
theorem ProcessPinEntries_same_bank_witness :
    ∃ masks ms, ProcessPinEntries [2, 13, 20] Masks.zero = some masks ∧
      List.Forall₂ (fun p m => GetPinMask p = some m) [2, 13, 20] ms ∧
      masks.get 1 = ms.foldl (· ||| ·) 0 ∧ masks.get 1 ≠ 0 ∧
      ∀ c, c < 4 → c ≠ 1 → masks.get c = 0 :=
  ProcessPinEntries_same_bank [2, 13, 20] 1 (by decide) (by
    intro p hp
    simp only [List.mem_cons, List.mem_singleton, List.not_mem_nil, or_false] at hp
    rcases hp with rfl | rfl | rfl
    · exact ⟨by decide, ⟨1, 25⟩, rfl, rfl⟩
    · exact ⟨by decide, ⟨1, 27⟩, rfl, rfl⟩
    · exact ⟨by decide, ⟨1, 12⟩, rfl, rfl⟩)

/-- C3: for every selector `s` in 0..7, converting `s` to a frequency and the
frequency back to a selector returns `s`. -/
theorem prescaler_selector_roundtrip (s : Nat) (hs : s ≤ 7) :
    FromFrequencyToPrescalerSelector
      (toUInt32 (FromPrescalerSelectorToFrequency s)) = (s : Int) := by
  interval_cases s <;> decide

/-- Witness of C3 at the selector 7 (the divide-by-3 entry). -/
theorem prescaler_selector_roundtrip_witness :
    FromFrequencyToPrescalerSelector
      (toUInt32 (FromPrescalerSelectorToFrequency 7)) = ((7 : Nat) : Int) :=
  prescaler_selector_roundtrip 7 (by decide)

/-- C4: for every frequency `f` (so for every 32-bit one),
`FromFrequencyToPrescalerSelector f` is `-1` exactly when `f` is not
`84000000 / d` for a `d` among 1, 2, 3, 4, 8, 16, 32, 64; otherwise the
result is a selector in 0..7. -/
theorem FromFrequencyToPrescalerSelector_invalid_iff (f : Nat) :
    (FromFrequencyToPrescalerSelector f = -1 ↔
      ¬ ∃ d ∈ [1, 2, 3, 4, 8, 16, 32, 64], f = 84000000 / d) ∧
    ((∃ d ∈ [1, 2, 3, 4, 8, 16, 32, 64], f = 84000000 / d) →
      0 ≤ FromFrequencyToPrescalerSelector f ∧
      FromFrequencyToPrescalerSelector f ≤ 7) := by
  simp only [FromFrequencyToPrescalerSelector, MainClockFrequency,
    List.mem_cons, List.mem_singleton, List.not_mem_nil, or_false,
    exists_eq_or_imp, exists_eq_left]
  norm_num
  split_ifs <;> simp_all

/-- C5: for every baud rate `r` (so for every 32-bit one),
`IsValidBaudrate r` holds exactly when `r` is a multiple of 16; it holds at
115200 and fails at 115201. -/
theorem IsValidBaudrate_iff_mod_16 (r : Nat) :
    (IsValidBaudrate r = true ↔ r % 16 = 0) ∧
    IsValidBaudrate 115200 = true ∧ IsValidBaudrate 115201 = false := by
  refine ⟨?_, by decide, by decide⟩
  have h : r &&& 0b1111 = r % 16 := Nat.and_pow_two_sub_one_eq_mod r 4
  simp [IsValidBaudrate, h]

/-- C6: for every frequency `m` and every baud rate `b > 0` (so for all
32-bit ones), `CalculateDivider m b` is the floor of (the floor of `m / b`)
divided by 16, the quotients taken in the rationals; at 84000000 and 9600 it
is 546. -/
theorem CalculateDivider_eq_floor_floor (m b : Nat) (hb : 0 < b) :
    CalculateDivider m b = some ⌊((⌊(m : ℚ) / (b : ℚ)⌋₊ : ℕ) : ℚ) / 16⌋₊ ∧
    CalculateDivider 84000000 9600 = some 546 := by
  refine ⟨?_, by decide⟩
  have h1 : ⌊(m : ℚ) / (b : ℚ)⌋₊ = m / b := Nat.floor_div_eq_div m b
  have h2 : ⌊(((m / b : ℕ)) : ℚ) / 16⌋₊ = m / b / 16 := by
    have h := @Nat.floor_div_eq_div ℚ _ _ (m / b) 16
    simpa using h
  rw [h1, h2]
  simp [CalculateDivider, Nat.pos_iff_ne_zero.1 hb]

/-- Witness of C6 at the frequency 84000000 and the baud rate 115200. -/
theorem CalculateDivider_eq_floor_floor_witness :
    CalculateDivider 84000000 115200 =
      some ⌊((⌊((84000000 : ℕ) : ℚ) / ((115200 : ℕ) : ℚ)⌋₊ : ℕ) : ℚ) / 16⌋₊ ∧
    CalculateDivider 84000000 9600 = some 546 :=
  CalculateDivider_eq_floor_floor 84000000 115200 (by decide)

/-- C7 fails at the baud rate 0: `IsValidBaudrate` accepts it, and the
division in `CalculateDivider` is then a division by zero. -/
theorem IsValidBaudrate_zero_CalculateDivider_undefined :
    IsValidBaudrate 0 = true ∧ CalculateDivider 84000000 0 = none := by
  decide

/-- The log after a store is the old log followed by the store. -/
theorem write_log (dev : Device) (r : Reg) (v : Nat) (s : Machine) :
    (write dev r v s).log = s.log ++ [(r, v % 2 ^ 32)] := rfl

/-- The compile-time `EnableBaud` at the main clock and 115200 baud passes
both static assertions and stores the divider 45. -/
theorem EnableBaud_main_115200 (dev : Device) (u : UartPtr) (s : Machine) :
    EnableBaud dev MainClockFrequency 115200 u s =
      some (write dev (Reg.uart u UartReg.UART_BRGR) 45 s) := by
  have h1 : ¬ FromFrequencyToPrescalerSelector MainClockFrequency = -1 := by
    decide
  have h2 : ¬ IsValidBaudrate 115200 = false := by decide
  have h3 : CalculateDivider MainClockFrequency 115200 = some 45 := by decide
  rw [EnableBaud, if_neg h1, if_neg h2, h3]

/-- C8: `Enable()` is defined on every state, and the writes it performs are
some writes to registers that are not UART registers, followed by exactly
these five writes to the UART: reset and disable Tx/Rx to the control
register, 45 = `CalculateDivider(84000000, 115200)` to the baud divider, the
parity mode to the mode register, `0xFFFFFFFF` to the interrupt-disable
register, enable Tx/Rx to the control register. -/
theorem Enable_uart_write_sequence (k : VendorConstants) (dev : Device)
    (s : Machine) :
    ∃ s1 pre, uart_impl.Enable k dev s = some s1 ∧
      s1.log = s.log ++ pre ++
        [ (Reg.uart UART UartReg.UART_CR,
            (k.UART_CR_RSTRX ||| k.UART_CR_RSTTX ||| k.UART_CR_RXDIS |||
              k.UART_CR_TXDIS) % 2 ^ 32),
          (Reg.uart UART UartReg.UART_BRGR, 45),
          (Reg.uart UART UartReg.UART_MR, k.UART_MR_PAR_NO % 2 ^ 32),
          (Reg.uart UART UartReg.UART_IDR, 0xFFFFFFFF),
          (Reg.uart UART UartReg.UART_CR,
            (k.UART_CR_RXEN ||| k.UART_CR_TXEN) % 2 ^ 32) ] ∧
      (∀ w ∈ pre, ∀ u r, w.1 ≠ Reg.uart u r) ∧
      CalculateDivider 84000000 115200 = some 45 := by
  let s1 := write dev Reg.PMC_PCER0 (1 <<< k.ID_PIOA) s
  let s2 := write dev (Reg.pio PioPtr.PIOA PioReg.PIO_PDR) k.PIO_PA8 s1
  let v3 := read (Reg.pio PioPtr.PIOA PioReg.PIO_ABSR) s2 &&&
    (0xFFFFFFFF - k.PIO_PA8 % 2 ^ 32)
  let s3 := write dev (Reg.pio PioPtr.PIOA PioReg.PIO_ABSR) v3 s2
  let s4 := write dev (Reg.pio PioPtr.PIOA PioReg.PIO_PDR) k.PIO_PA9 s3
  let v5 := read (Reg.pio PioPtr.PIOA PioReg.PIO_ABSR) s4 &&&
    (0xFFFFFFFF - k.PIO_PA9 % 2 ^ 32)
  let s5 := write dev (Reg.pio PioPtr.PIOA PioReg.PIO_ABSR) v5 s4
  let s6 := write dev Reg.PMC_PCER0 (0x01 <<< k.ID_UART) s5
  let pre : List (Reg × Nat) :=
      [ (Reg.PMC_PCER0, (1 <<< k.ID_PIOA) % 2 ^ 32),
        (Reg.pio PioPtr.PIOA PioReg.PIO_PDR, k.PIO_PA8 % 2 ^ 32),
        (Reg.pio PioPtr.PIOA PioReg.PIO_ABSR, v3 % 2 ^ 32),
        (Reg.pio PioPtr.PIOA PioReg.PIO_PDR, k.PIO_PA9 % 2 ^ 32),
        (Reg.pio PioPtr.PIOA PioReg.PIO_ABSR, v5 % 2 ^ 32),
        (Reg.PMC_PCER0, (0x01 <<< k.ID_UART) % 2 ^ 32) ]
  have h6 : s6.log = s.log ++ pre := by
    simp only [s6, s5, s4, s3, s2, s1, pre, write_log, List.append_assoc,
      List.cons_append, List.nil_append]
  refine ⟨EnableTRX k dev UART
      (write dev (Reg.uart UART UartReg.UART_IDR) 0xFFFFFFFF
        (write dev (Reg.uart UART UartReg.UART_MR) k.UART_MR_PAR_NO
          (write dev (Reg.uart UART UartReg.UART_BRGR) 45
            (ResetTRX k dev UART s6)))), pre, ?_, ?_, ?_, ?_⟩
  · simp only [uart_impl.Enable, EnableBaud_main_115200, s6, s5, s4, s3, s2,
      s1, v3, v5]
  · simp only [ResetTRX, EnableTRX, write_log, h6, List.append_assoc,
      List.cons_append, List.nil_append]
    rfl
  · intro w hw u r
    simp only [pre, List.mem_cons, List.mem_singleton, List.not_mem_nil,
      or_false] at hw
    rcases hw with rfl | rfl | rfl | rfl | rfl | rfl <;> simp
  · decide

/-- Setting the bits of a mask and testing them gives the mask. -/
theorem lor_land_self (x m : Nat) : (x ||| m) &&& m = m := by
  apply Nat.eq_of_testBit_eq
  intro i
  simp only [Nat.testBit_and, Nat.testBit_or]
  cases x.testBit i <;> cases m.testBit i <;> rfl

/-- Clearing the bits of a mask and testing them gives zero. -/
theorem xor_land_land_self (x m : Nat) : (x ^^^ (x &&& m)) &&& m = 0 := by
  apply Nat.eq_of_testBit_eq
  intro i
  simp only [Nat.testBit_and, Nat.testBit_xor, Nat.zero_testBit]
  cases x.testBit i <;> cases m.testBit i <;> rfl

/-- A pin of the table resolves to one of the four groups and to the
single-bit mask of its entry. -/
theorem pin_resolves (p : Nat) (hp : p < 21) :
    ∃ port bit, GetPortByPin p = some port ∧ port ≠ PioPtr.nullptr ∧
      bit < 32 ∧ GetPinMask p = some (2 ^ bit) := by
  have hlen : p < pin_info_array.length := hp
  obtain ⟨e, he⟩ : ∃ e, pin_info_array[p]? = some e :=
    ⟨_, List.getElem?_eq_getElem hlen⟩
  have hb := pin_info_array_bounds p e he
  have hm := GetPinMask_of_entry p e he
  obtain ⟨port, bit⟩ := e
  simp only at hb hm
  obtain ⟨hport, hbit⟩ := hb
  interval_cases port
  · exact ⟨PioPtr.PIOA, bit, by simp [GetPortByPin, he], by decide, hbit, hm⟩
  · exact ⟨PioPtr.PIOB, bit, by simp [GetPortByPin, he], by decide, hbit, hm⟩
  · exact ⟨PioPtr.PIOC, bit, by simp [GetPortByPin, he], by decide, hbit, hm⟩
  · exact ⟨PioPtr.PIOD, bit, by simp [GetPortByPin, he], by decide, hbit, hm⟩

/-- C9: in the loopback harness, for every pin `p` of the table, every level
`v` and every register state, `set(v)` is defined and `get()` on the
resulting state returns `v`. -/
theorem set_then_get_loopback (p : Nat) (hp : p < 21) (v : Bool)
    (s : Machine) :
    ∃ s1, pin_impl.set Device.loopback p v s = some s1 ∧
      pin_impl.get p s1 = some v := by
  obtain ⟨port, bit, hport, hnull, hbit, hmask⟩ := pin_resolves p hp
  have hlt : 2 ^ bit < 2 ^ 32 := Nat.pow_lt_pow_right (by decide) hbit
  have hpos : 2 ^ bit ≠ 0 := by positivity
  have hset : pin_impl.set Device.loopback p v s = some (write Device.loopback
      (Reg.pio port (if v then PioReg.PIO_SODR else PioReg.PIO_CODR))
      (2 ^ bit) s) := by
    simp only [pin_impl.set, hport, hmask, hnull, if_false]
  refine ⟨_, hset, ?_⟩
  simp only [pin_impl.get, hport, hmask, hnull, if_false, read, write,
    Nat.mod_eq_of_lt hlt]
  cases v
  · simp [Device.loopback, xor_land_land_self]
  · simp [Device.loopback, lor_land_self, hpos]

/-- Witness of C9 at pin 13 and the level `true`, from the all-zero state. -/
theorem set_then_get_loopback_witness :
    ∃ s1, pin_impl.set Device.loopback 13 true ⟨fun _ => 0, []⟩ = some s1 ∧
      pin_impl.get 13 s1 = some true :=
  set_then_get_loopback 13 (by decide) true ⟨fun _ => 0, []⟩

/-- C10: with registers as plain storage, after `DisableBaud(uart)` the
baud divider register of `uart` reads 0, every other register reads what it
read before, and the one write performed is that of 0 to the divider. -/
theorem DisableBaud_zero_and_frame (uart : UartPtr) (s : Machine) :
    read (Reg.uart uart UartReg.UART_BRGR) (DisableBaud Device.plain uart s) = 0 ∧
    (∀ r, r ≠ Reg.uart uart UartReg.UART_BRGR →
      read r (DisableBaud Device.plain uart s) = read r s) ∧
    (DisableBaud Device.plain uart s).log =
      s.log ++ [(Reg.uart uart UartReg.UART_BRGR, 0)] := by
  refine ⟨?_, ?_, rfl⟩
  · simp [read, DisableBaud, write, Device.plain]
  · intro r hr
    simp [read, DisableBaud, write, Device.plain, Function.update_noteq hr]

/-- C11: `FromPrescalerSelectorToFrequency s` is `84000000 / 2^s` for `s` in
0..6, `84000000 / 3` for `s = 7` and `-1` for every `s > 7`; the values at
the selectors 0..7 are exactly `84000000 / d` for `d` among
1, 2, 3, 4, 8, 16, 32, 64. -/
theorem FromPrescalerSelectorToFrequency_values :
    (∀ s, s ≤ 6 →
      FromPrescalerSelectorToFrequency s = ((84000000 / 2 ^ s : Nat) : Int)) ∧
    FromPrescalerSelectorToFrequency 7 = ((84000000 / 3 : Nat) : Int) ∧
    (∀ s, 7 < s → FromPrescalerSelectorToFrequency s = -1) ∧
    (∀ v : Int, (∃ s, s ≤ 7 ∧ FromPrescalerSelectorToFrequency s = v) ↔
      ∃ d ∈ [1, 2, 3, 4, 8, 16, 32, 64], v = ((84000000 / d : Nat) : Int)) := by
  refine ⟨?_, by decide, ?_, ?_⟩
  · intro s hs
    interval_cases s <;> decide
  · intro s hs
    have h0 : s ≠ 0 := by omega
    have h1 : s ≠ 1 := by omega
    have h2 : s ≠ 2 := by omega
    have h3 : s ≠ 3 := by omega
    have h4 : s ≠ 4 := by omega
    have h5 : s ≠ 5 := by omega
    have h6 : s ≠ 6 := by omega
    have h7 : s ≠ 7 := by omega
    simp only [FromPrescalerSelectorToFrequency, h0, h1, h2, h3, h4, h5, h6,
      h7, if_false]
  · intro v
    constructor
    · rintro ⟨s, hs, rfl⟩
      interval_cases s
      · exact ⟨1, by decide, by decide⟩
      · exact ⟨2, by decide, by decide⟩
      · exact ⟨4, by decide, by decide⟩
      · exact ⟨8, by decide, by decide⟩
      · exact ⟨16, by decide, by decide⟩
      · exact ⟨32, by decide, by decide⟩
      · exact ⟨64, by decide, by decide⟩
      · exact ⟨3, by decide, by decide⟩
    · rintro ⟨d, hd, rfl⟩
      simp only [List.mem_cons, List.mem_singleton, List.not_mem_nil,
        or_false] at hd
      rcases hd with rfl | rfl | rfl | rfl | rfl | rfl | rfl | rfl
      · exact ⟨0, by decide, by decide⟩
      · exact ⟨1, by decide, by decide⟩
      · exact ⟨7, by decide, by decide⟩
      · exact ⟨2, by decide, by decide⟩
      · exact ⟨3, by decide, by decide⟩
      · exact ⟨4, by decide, by decide⟩
      · exact ⟨5, by decide, by decide⟩
      · exact ⟨6, by decide, by decide⟩

/-- Witness of C11 at the selectors 6 and 8. -/
theorem FromPrescalerSelectorToFrequency_values_witness :
    FromPrescalerSelectorToFrequency 6 = ((84000000 / 2 ^ 6 : Nat) : Int) ∧
    FromPrescalerSelectorToFrequency 8 = -1 :=
  ⟨FromPrescalerSelectorToFrequency_values.1 6 (by decide),
   FromPrescalerSelectorToFrequency_values.2.2.1 8 (by decide)⟩

/-- A bitwise OR is zero exactly when both sides are. -/
theorem lor_eq_zero_iff (x y : Nat) : x ||| y = 0 ↔ x = 0 ∧ y = 0 := by
  have h := foldl_lor_eq_zero [y] x
  simpa using h

/-- The bits of the aggregated mask of a bank are the bits of the entries
of the listed pins in that bank. -/
theorem testBit_aggregatedMask (b i : Nat) (pins : List Nat) :
    (aggregatedMask b pins).testBit i = true ↔
      ∃ p ∈ pins, ∃ e, pin_info_array[p]? = some e ∧ e.m_port = b ∧
        e.m_pin = i := by
  induction pins with
  | nil => simp [aggregatedMask]
  | cons p ps ih =>
    cases h : pin_info_array[p]? with
    | none => simp [aggregatedMask, h, ih]
    | some e =>
      by_cases hb : e.m_port = b
      · simp only [aggregatedMask, h, hb, if_true, Nat.testBit_or,
          Nat.one_shiftLeft, Nat.testBit_two_pow, Bool.or_eq_true,
          decide_eq_true_eq, ih, List.mem_cons, exists_eq_or_imp,
          Option.some.injEq, exists_eq_left', true_and]
      · simp only [aggregatedMask, h, hb, if_false, ih, List.mem_cons,
          exists_eq_or_imp, Option.some.injEq, exists_eq_left', false_and,
          false_or]

/-- The aggregated mask of a bank is not zero exactly when a listed pin
resolves to the bank. -/
theorem aggregatedMask_ne_zero_iff (b : Nat) (pins : List Nat) :
    aggregatedMask b pins ≠ 0 ↔ bankTouched b pins = true := by
  induction pins with
  | nil => simp [aggregatedMask, bankTouched]
  | cons p ps ih =>
    have ih1 : aggregatedMask b ps = 0 ↔ ¬ bankTouched b ps = true := by
      rw [← ih]; exact not_not.symm
    cases h : pin_info_array[p]? with
    | none =>
      simp only [bankTouched, List.any_cons, h, Bool.false_or, aggregatedMask]
      exact ih
    | some e =>
      by_cases hb : e.m_port = b
      · have hpos : (1 <<< e.m_pin) ≠ 0 := by
          rw [Nat.one_shiftLeft]; positivity
        simp [bankTouched, h, hb, aggregatedMask, lor_eq_zero_iff, hpos]
      · simp only [bankTouched, List.any_cons, h, hb, decide_False,
          Bool.false_or, aggregatedMask, if_false]
        exact ih

/-- The aggregated mask of a bank fits 32 bits. -/
theorem aggregatedMask_lt (b : Nat) (pins : List Nat) :
    aggregatedMask b pins < 2 ^ 32 := by
  induction pins with
  | nil => simp [aggregatedMask]
  | cons p ps ih =>
    cases h : pin_info_array[p]? with
    | none => simpa [aggregatedMask, h] using ih
    | some e =>
      by_cases hb : e.m_port = b
      · have hbit := (pin_info_array_bounds p e h).2
        have hlt : 1 <<< e.m_pin < 2 ^ 32 := by
          rw [Nat.one_shiftLeft]; exact Nat.pow_lt_pow_right (by decide) hbit
        simp only [aggregatedMask, h, hb, if_true]
        exact Nat.or_lt_two_pow hlt ih
      · simpa [aggregatedMask, h, hb] using ih

/-- The aggregation over table pins, from any masks: every entry of the
result is the entry before ORed with the aggregated mask of that bank. -/
theorem ProcessPinEntries_aggregated (pins : List Nat) (masks0 : Masks)
    (hp : ∀ p ∈ pins, p < 21) :
    ∃ masks, ProcessPinEntries pins masks0 = some masks ∧
      ∀ b, masks.get b = masks0.get b ||| aggregatedMask b pins := by
  induction pins generalizing masks0 with
  | nil => exact ⟨masks0, rfl, fun b => by simp [aggregatedMask]⟩
  | cons p ps ih =>
    have hlen : p < pin_info_array.length := hp p (List.mem_cons_self _ _)
    obtain ⟨e, he⟩ : ∃ e, pin_info_array[p]? = some e :=
      ⟨_, List.getElem?_eq_getElem hlen⟩
    obtain ⟨masks1, h1, h1b, h1o⟩ := ProcessPinEntry_of_entry p e masks0 he
    obtain ⟨masks, h2, h2b⟩ :=
      ih masks1 (fun q hq => hp q (List.mem_cons_of_mem _ hq))
    refine ⟨masks, by simp [ProcessPinEntries, h1, h2], ?_⟩
    intro b
    by_cases hb : e.m_port = b
    · subst hb
      rw [h2b, h1b]
      simp only [aggregatedMask, he, if_true, Nat.one_shiftLeft]
      exact Nat.lor_assoc _ _ _
    · rw [h2b, h1o b (Ne.symm hb)]
      simp only [aggregatedMask, he, hb, if_false]

/-- From all-zero masks the aggregation over table pins yields the four
aggregated masks. -/
theorem ProcessPinEntries_zero (pins : List Nat) (hp : ∀ p ∈ pins, p < 21) :
    ProcessPinEntries pins Masks.zero =
      some ⟨aggregatedMask 0 pins, aggregatedMask 1 pins,
        aggregatedMask 2 pins, aggregatedMask 3 pins⟩ := by
  obtain ⟨masks, hrun, hget⟩ := ProcessPinEntries_aggregated pins Masks.zero hp
  have h0 := hget 0
  have h1 := hget 1
  have h2 := hget 2
  have h3 := hget 3
  obtain ⟨a, b, c, d⟩ := masks
  simp only [Masks.get, Masks.zero, Nat.zero_or, if_true, OfNat.ofNat_ne_zero,
    if_false, Nat.succ_ne_zero, OfNat.ofNat_ne_one, Nat.reduceEqDiff] at h0 h1 h2 h3
  rw [hrun, h0, h1, h2, h3]

/-- The writes of `PinSequenceEnable` on table pins: for each of the four
groups in the order A, B, C, D the two writes of its aggregated mask when
that mask is not zero, then the write of the clock-gate mask. -/
theorem PinSequenceEnable_writes (dev : Device) (pins : List Nat)
    (s : Machine) (hp : ∀ p ∈ pins, p < 21) :
    ∃ s1, PinSequenceEnable dev pins s = some s1 ∧
      s1.log = s.log ++
        (groupWrites PioPtr.PIOA (aggregatedMask 0 pins) ++
          (groupWrites PioPtr.PIOB (aggregatedMask 1 pins) ++
            (groupWrites PioPtr.PIOC (aggregatedMask 2 pins) ++
              (groupWrites PioPtr.PIOD (aggregatedMask 3 pins) ++
                [(Reg.PMC_PCER0, clockGateMask pins)])))) := by
  have t0 := aggregatedMask_ne_zero_iff 0 pins
  have t1 := aggregatedMask_ne_zero_iff 1 pins
  have t2 := aggregatedMask_ne_zero_iff 2 pins
  have t3 := aggregatedMask_ne_zero_iff 3 pins
  have l0 := Nat.mod_eq_of_lt (aggregatedMask_lt 0 pins)
  have l1 := Nat.mod_eq_of_lt (aggregatedMask_lt 1 pins)
  have l2 := Nat.mod_eq_of_lt (aggregatedMask_lt 2 pins)
  have l3 := Nat.mod_eq_of_lt (aggregatedMask_lt 3 pins)
  simp only [PinSequenceEnable, ProcessPinEntries_zero pins hp]
  by_cases h0 : aggregatedMask 0 pins = 0 <;>
  by_cases h1 : aggregatedMask 1 pins = 0 <;>
  by_cases h2 : aggregatedMask 2 pins = 0 <;>
  by_cases h3 : aggregatedMask 3 pins = 0 <;>
  · have b0 := t0
    have b1 := t1
    have b2 := t2
    have b3 := t3
    simp only [h0, h1, h2, h3, ne_eq, not_true_eq_false, not_false_eq_true,
      false_iff, true_iff, Bool.not_eq_true] at b0 b1 b2 b3
    refine ⟨_, rfl, ?_⟩
    simp only [h0, h1, h2, h3, ne_eq, not_true_eq_false, not_false_eq_true,
      if_true, if_false, write_log, groupWrites, clockGateMask, l0, l1, l2,
      l3, b0, b1, b2, b3, List.foldr_cons, List.foldr_nil, List.append_assoc,
      List.cons_append, List.nil_append, List.append_nil, Bool.false_eq_true]
    rfl

/-- C12: on every list of table pins `PinSequenceEnable` is defined, and
the writes it performs are writes to `PIO_PER` / `PIO_OER` registers followed
by one write to `PMC_PCER0`, the last write and the only one to that
register, of the OR of `1 << (11 + b)` over the banks `b` with a listed
pin. -/
theorem PinSequenceEnable_clock_write_last (dev : Device) (pins : List Nat)
    (s : Machine) (hp : ∀ p ∈ pins, p < 21) :
    ∃ s1 ws, PinSequenceEnable dev pins s = some s1 ∧
      s1.log = s.log ++ ws ++ [(Reg.PMC_PCER0, clockGateMask pins)] ∧
      (∀ w ∈ ws, ∃ port, w.1 = Reg.pio port PioReg.PIO_PER ∨
        w.1 = Reg.pio port PioReg.PIO_OER) ∧
      (∀ w ∈ ws, w.1 ≠ Reg.PMC_PCER0) := by
  obtain ⟨s1, hrun, hlog⟩ := PinSequenceEnable_writes dev pins s hp
  have hgw : ∀ port m, ∀ w ∈ groupWrites port m,
      ∃ q, w.1 = Reg.pio q PioReg.PIO_PER ∨ w.1 = Reg.pio q PioReg.PIO_OER := by
    intro port m w hw
    unfold groupWrites at hw
    split_ifs at hw
    · simp only [List.mem_cons, List.mem_singleton, List.not_mem_nil,
        or_false] at hw
      rcases hw with rfl | rfl
      · exact ⟨port, Or.inl rfl⟩
      · exact ⟨port, Or.inr rfl⟩
    · simp at hw
  have hws : ∀ w ∈ groupWrites PioPtr.PIOA (aggregatedMask 0 pins) ++
      (groupWrites PioPtr.PIOB (aggregatedMask 1 pins) ++
        (groupWrites PioPtr.PIOC (aggregatedMask 2 pins) ++
          groupWrites PioPtr.PIOD (aggregatedMask 3 pins))),
      ∃ q, w.1 = Reg.pio q PioReg.PIO_PER ∨ w.1 = Reg.pio q PioReg.PIO_OER := by
    intro w hw
    simp only [List.mem_append] at hw
    rcases hw with h | h | h | h <;> exact hgw _ _ w h
  refine ⟨s1, _, hrun, ?_, hws, ?_⟩
  · rw [hlog]
    simp only [List.append_assoc]
  · intro w hw hpmc
    obtain ⟨q, hq | hq⟩ := hws w hw <;> rw [hpmc] at hq <;> cases hq

/-- Witness of C12 at the pins 0, 13 and 2, from the all-zero state. -/
theorem PinSequenceEnable_clock_write_last_witness :
    ∃ s1 ws, PinSequenceEnable Device.plain [0, 13, 2] ⟨fun _ => 0, []⟩ =
        some s1 ∧
      s1.log = [] ++ ws ++ [(Reg.PMC_PCER0, clockGateMask [0, 13, 2])] ∧
      (∀ w ∈ ws, ∃ port, w.1 = Reg.pio port PioReg.PIO_PER ∨
        w.1 = Reg.pio port PioReg.PIO_OER) ∧
      (∀ w ∈ ws, w.1 ≠ Reg.PMC_PCER0) :=
  PinSequenceEnable_clock_write_last Device.plain [0, 13, 2]
    ⟨fun _ => 0, []⟩ (by decide)

/-- The writes to one group among the two writes of another. -/
theorem filter_groupWrites (port q : PioPtr) (m : Nat) :
    (groupWrites q m).filter (fun w => inGroup port w.1) =
      if q = port then groupWrites q m else [] := by
  unfold groupWrites
  by_cases hq : q = port <;> by_cases hm : m = 0 <;>
    simp [hq, hm, inGroup, List.filter_cons]

/-- C13: on every list of table pins and for every bank `b` with its
register group (0 with PIOA, 1 with PIOB, 2 with PIOC, 3 with PIOD), the
writes of `PinSequenceEnable` to registers of that group are: when a listed
pin resolves to `b`, the aggregated mask of `b` once to `PIO_PER` and once
to `PIO_OER`; when none does, no write at all. -/
theorem PinSequenceEnable_group_writes (dev : Device) (pins : List Nat)
    (s : Machine) (hp : ∀ p ∈ pins, p < 21) (b : Nat) (port : PioPtr)
    (hbp : (b, port) ∈ [(0, PioPtr.PIOA), (1, PioPtr.PIOB), (2, PioPtr.PIOC),
      (3, PioPtr.PIOD)]) :
    ∃ s1 ws, PinSequenceEnable dev pins s = some s1 ∧ s1.log = s.log ++ ws ∧
      ws.filter (fun w => inGroup port w.1) =
        if bankTouched b pins then
          [(Reg.pio port PioReg.PIO_PER, aggregatedMask b pins),
            (Reg.pio port PioReg.PIO_OER, aggregatedMask b pins)]
        else [] := by
  obtain ⟨s1, hrun, hlog⟩ := PinSequenceEnable_writes dev pins s hp
  refine ⟨s1, _, hrun, hlog, ?_⟩
  have hg : groupWrites port (aggregatedMask b pins) =
      if bankTouched b pins then
        [(Reg.pio port PioReg.PIO_PER, aggregatedMask b pins),
          (Reg.pio port PioReg.PIO_OER, aggregatedMask b pins)]
      else [] := by
    unfold groupWrites
    by_cases ht : bankTouched b pins = true
    · rw [if_pos ((aggregatedMask_ne_zero_iff b pins).2 ht), if_pos ht]
    · rw [if_neg (fun h => ht ((aggregatedMask_ne_zero_iff b pins).1 h)),
        if_neg ht]
  rw [← hg]
  simp only [List.mem_cons, List.mem_singleton, List.not_mem_nil, or_false,
    Prod.mk.injEq] at hbp
  rcases hbp with ⟨rfl, rfl⟩ | ⟨rfl, rfl⟩ | ⟨rfl, rfl⟩ | ⟨rfl, rfl⟩ <;>
    · simp only [List.filter_append, filter_groupWrites]
      simp [inGroup, List.filter_cons]

/-- Witness of C13 at the pins 0, 13 and 2 and the bank 1 (PIOB). -/
theorem PinSequenceEnable_group_writes_witness :
    ∃ s1 ws, PinSequenceEnable Device.plain [0, 13, 2] ⟨fun _ => 0, []⟩ =
        some s1 ∧ s1.log = [] ++ ws ∧
      ws.filter (fun w => inGroup PioPtr.PIOB w.1) =
        if bankTouched 1 [0, 13, 2] then
          [(Reg.pio PioPtr.PIOB PioReg.PIO_PER, aggregatedMask 1 [0, 13, 2]),
            (Reg.pio PioPtr.PIOB PioReg.PIO_OER, aggregatedMask 1 [0, 13, 2])]
        else [] :=
  PinSequenceEnable_group_writes Device.plain [0, 13, 2] ⟨fun _ => 0, []⟩
    (by decide) 1 PioPtr.PIOB (by decide)

/-- The aggregated mask of a bank depends only on the set of listed pins. -/
theorem aggregatedMask_congr (b : Nat) (pins1 pins2 : List Nat)
    (hset : ∀ p, p ∈ pins1 ↔ p ∈ pins2) :
    aggregatedMask b pins1 = aggregatedMask b pins2 := by
  apply Nat.eq_of_testBit_eq
  intro i
  have h1 := testBit_aggregatedMask b i pins1
  have h2 := testBit_aggregatedMask b i pins2
  have h : (aggregatedMask b pins1).testBit i = true ↔
      (aggregatedMask b pins2).testBit i = true := by
    rw [h1, h2]
    constructor
    · rintro ⟨p, hp, h⟩; exact ⟨p, (hset p).1 hp, h⟩
    · rintro ⟨p, hp, h⟩; exact ⟨p, (hset p).2 hp, h⟩
  exact Bool.eq_iff_iff.2 h

/-- C14: two lists of table pins with the same set of pins (any order, any
repetition) give the same four masks under the fold of `ProcessPinEntry`,
and `PinSequenceEnable` is defined on both with the same list of register
writes. -/
theorem aggregation_order_and_duplicates (dev : Device)
    (pins1 pins2 : List Nat) (s : Machine) (hp : ∀ p ∈ pins1, p < 21)
    (hset : ∀ p, p ∈ pins1 ↔ p ∈ pins2) :
    (∃ masks, ProcessPinEntries pins1 Masks.zero = some masks ∧
      ProcessPinEntries pins2 Masks.zero = some masks) ∧
    (∃ s1 s2, PinSequenceEnable dev pins1 s = some s1 ∧
      PinSequenceEnable dev pins2 s = some s2 ∧ s1.log = s2.log) := by
  have hp2 : ∀ p ∈ pins2, p < 21 := fun p h => hp p ((hset p).2 h)
  have e0 := aggregatedMask_congr 0 pins1 pins2 hset
  have e1 := aggregatedMask_congr 1 pins1 pins2 hset
  have e2 := aggregatedMask_congr 2 pins1 pins2 hset
  have e3 := aggregatedMask_congr 3 pins1 pins2 hset
  have hm1 := ProcessPinEntries_zero pins1 hp
  have hm2 := ProcessPinEntries_zero pins2 hp2
  rw [e0, e1, e2, e3] at hm1
  refine ⟨⟨_, hm1, hm2⟩, ?_⟩
  obtain ⟨s1, hrun1, hlog1⟩ := PinSequenceEnable_writes dev pins1 s hp
  obtain ⟨s2, hrun2, hlog2⟩ := PinSequenceEnable_writes dev pins2 s hp2
  refine ⟨s1, s2, hrun1, hrun2, ?_⟩
  have hc : clockGateMask pins1 = clockGateMask pins2 := by
    have ht : ∀ b, bankTouched b pins1 = bankTouched b pins2 := by
      intro b
      apply Bool.eq_iff_iff.2
      rw [← aggregatedMask_ne_zero_iff, ← aggregatedMask_ne_zero_iff,
        aggregatedMask_congr b pins1 pins2 hset]
    simp only [clockGateMask, ht]
  rw [hlog1, hlog2, e0, e1, e2, e3, hc]

/-- Witness of C14 at the lists 13, 2, 13 and 2, 13. -/
theorem aggregation_order_and_duplicates_witness :
    (∃ masks, ProcessPinEntries [13, 2, 13] Masks.zero = some masks ∧
      ProcessPinEntries [2, 13] Masks.zero = some masks) ∧
    (∃ s1 s2,
      PinSequenceEnable Device.plain [13, 2, 13] ⟨fun _ => 0, []⟩ = some s1 ∧
      PinSequenceEnable Device.plain [2, 13] ⟨fun _ => 0, []⟩ = some s2 ∧
      s1.log = s2.log) :=
  aggregation_order_and_duplicates Device.plain [13, 2, 13] [2, 13]
    ⟨fun _ => 0, []⟩ (by decide) (by
      intro p
      simp only [List.mem_cons, List.mem_singleton, List.not_mem_nil, or_false]
      tauto)

/-- A pin of the table resolves to its entry, to the register group of the
bank id of the entry and to the single-bit mask of the entry. -/
theorem pin_resolves_entry (p : Nat) (hp : p < 21) :
    ∃ e port, pin_info_array[p]? = some e ∧ GetPortByPin p = some port ∧
      ((e.m_port = 0 ∧ port = PioPtr.PIOA) ∨
       (e.m_port = 1 ∧ port = PioPtr.PIOB) ∨
       (e.m_port = 2 ∧ port = PioPtr.PIOC) ∨
       (e.m_port = 3 ∧ port = PioPtr.PIOD)) ∧
      port ≠ PioPtr.nullptr ∧ e.m_pin < 32 ∧
      GetPinMask p = some (1 <<< e.m_pin) := by
  have hlen : p < pin_info_array.length := hp
  obtain ⟨e, he⟩ : ∃ e, pin_info_array[p]? = some e :=
    ⟨_, List.getElem?_eq_getElem hlen⟩
  have hb := pin_info_array_bounds p e he
  have hm := GetPinMask_of_entry p e he
  rw [← Nat.one_shiftLeft] at hm
  obtain ⟨hport, hbit⟩ := hb
  obtain ⟨port, bit⟩ := e
  simp only at hport hbit hm
  interval_cases port
  · exact ⟨_, PioPtr.PIOA, he, by simp [GetPortByPin, he],
      Or.inl ⟨rfl, rfl⟩, by decide, hbit, hm⟩
  · exact ⟨_, PioPtr.PIOB, he, by simp [GetPortByPin, he],
      Or.inr (Or.inl ⟨rfl, rfl⟩), by decide, hbit, hm⟩
  · exact ⟨_, PioPtr.PIOC, he, by simp [GetPortByPin, he],
      Or.inr (Or.inr (Or.inl ⟨rfl, rfl⟩)), by decide, hbit, hm⟩
  · exact ⟨_, PioPtr.PIOD, he, by simp [GetPortByPin, he],
      Or.inr (Or.inr (Or.inr ⟨rfl, rfl⟩)), by decide, hbit, hm⟩

/-- C15: for every pin `p` of the table, with `e` its entry and `port` the
register group of the bank id of `e` (PIOA, PIOB, PIOC, PIOD for the bank
ids 0, 1, 2, 3), each of `set(true)`, `set(false)`, `enable_pullup()` and
`disable_pullup()` is defined and performs exactly one write, of
`1 << e.m_pin`, to `PIO_SODR`, `PIO_CODR`, `PIO_PUER` and `PIO_PUDR` of
`port` respectively; the one register written belongs to the group of the
bank of `p`, so no register of another bank is written. -/
theorem pin_impl_single_write (dev : Device) (p : Nat) (s : Machine)
    (hp : p < 21) :
    ∃ e port, pin_info_array[p]? = some e ∧
      ((e.m_port = 0 ∧ port = PioPtr.PIOA) ∨
       (e.m_port = 1 ∧ port = PioPtr.PIOB) ∨
       (e.m_port = 2 ∧ port = PioPtr.PIOC) ∨
       (e.m_port = 3 ∧ port = PioPtr.PIOD)) ∧
      (∃ s1, pin_impl.set dev p true s = some s1 ∧
        s1.log = s.log ++ [(Reg.pio port PioReg.PIO_SODR, 1 <<< e.m_pin)]) ∧
      (∃ s1, pin_impl.set dev p false s = some s1 ∧
        s1.log = s.log ++ [(Reg.pio port PioReg.PIO_CODR, 1 <<< e.m_pin)]) ∧
      (∃ s1, pin_impl.enable_pullup dev p s = some s1 ∧
        s1.log = s.log ++ [(Reg.pio port PioReg.PIO_PUER, 1 <<< e.m_pin)]) ∧
      (∃ s1, pin_impl.disable_pullup dev p s = some s1 ∧
        s1.log = s.log ++ [(Reg.pio port PioReg.PIO_PUDR, 1 <<< e.m_pin)]) ∧
      (∀ v s1, pin_impl.set dev p v s = some s1 →
        ∀ w ∈ s1.log.drop s.log.length, inGroup port w.1 = true) ∧
      (∀ s1, pin_impl.enable_pullup dev p s = some s1 →
        ∀ w ∈ s1.log.drop s.log.length, inGroup port w.1 = true) ∧
      (∀ s1, pin_impl.disable_pullup dev p s = some s1 →
        ∀ w ∈ s1.log.drop s.log.length, inGroup port w.1 = true) := by
  obtain ⟨e, port, he, hport, hbank, hnull, hbit, hmask⟩ :=
    pin_resolves_entry p hp
  have hlt : 1 <<< e.m_pin < 2 ^ 32 := by
    rw [Nat.one_shiftLeft]; exact Nat.pow_lt_pow_right (by decide) hbit
  have hmod := Nat.mod_eq_of_lt hlt
  have hset : ∀ v, pin_impl.set dev p v s = some (write dev
      (Reg.pio port (if v then PioReg.PIO_SODR else PioReg.PIO_CODR))
      (1 <<< e.m_pin) s) := by
    intro v
    simp only [pin_impl.set, hport, hmask, hnull, if_false]
  have hup : pin_impl.enable_pullup dev p s =
      some (write dev (Reg.pio port PioReg.PIO_PUER) (1 <<< e.m_pin) s) := by
    simp only [pin_impl.enable_pullup, hport, hmask, hnull, if_false]
  have hdown : pin_impl.disable_pullup dev p s =
      some (write dev (Reg.pio port PioReg.PIO_PUDR) (1 <<< e.m_pin) s) := by
    simp only [pin_impl.disable_pullup, hport, hmask, hnull, if_false]
  have hdrop : ∀ r v, ∀ w ∈ (write dev (Reg.pio port r) v s).log.drop
      s.log.length, inGroup port w.1 = true := by
    intro r v w hw
    rw [write_log, List.drop_left] at hw
    simp only [List.mem_singleton] at hw
    subst hw
    simp [inGroup]
  refine ⟨e, port, he, hbank,
    ⟨_, hset true, ?_⟩, ⟨_, hset false, ?_⟩, ⟨_, hup, ?_⟩, ⟨_, hdown, ?_⟩,
    ?_, ?_, ?_⟩
  · rw [write_log, hmod]; rfl
  · rw [write_log, hmod]; rfl
  · rw [write_log, hmod]
  · rw [write_log, hmod]
  · intro v s1 h1
    rw [hset v, Option.some.injEq] at h1
    subst h1
    exact hdrop _ _
  · intro s1 h1
    rw [hup, Option.some.injEq] at h1
    subst h1
    exact hdrop _ _
  · intro s1 h1
    rw [hdown, Option.some.injEq] at h1
    subst h1
    exact hdrop _ _

/-- Witness of C15 at pin 13 (bank 1, PIOB), from the all-zero state. -/
theorem pin_impl_single_write_witness :
    ∃ e port, pin_info_array[13]? = some e ∧
      ((e.m_port = 0 ∧ port = PioPtr.PIOA) ∨
       (e.m_port = 1 ∧ port = PioPtr.PIOB) ∨
       (e.m_port = 2 ∧ port = PioPtr.PIOC) ∨
       (e.m_port = 3 ∧ port = PioPtr.PIOD)) ∧
      (∃ s1, pin_impl.set Device.plain 13 true ⟨fun _ => 0, []⟩ = some s1 ∧
        s1.log = [] ++ [(Reg.pio port PioReg.PIO_SODR, 1 <<< e.m_pin)]) ∧
      (∃ s1, pin_impl.set Device.plain 13 false ⟨fun _ => 0, []⟩ = some s1 ∧
        s1.log = [] ++ [(Reg.pio port PioReg.PIO_CODR, 1 <<< e.m_pin)]) ∧
      (∃ s1, pin_impl.enable_pullup Device.plain 13 ⟨fun _ => 0, []⟩ = some s1 ∧
        s1.log = [] ++ [(Reg.pio port PioReg.PIO_PUER, 1 <<< e.m_pin)]) ∧
      (∃ s1, pin_impl.disable_pullup Device.plain 13 ⟨fun _ => 0, []⟩ = some s1 ∧
        s1.log = [] ++ [(Reg.pio port PioReg.PIO_PUDR, 1 <<< e.m_pin)]) ∧
      (∀ v s1, pin_impl.set Device.plain 13 v ⟨fun _ => 0, []⟩ = some s1 →
        ∀ w ∈ s1.log.drop ([] : List (Reg × Nat)).length,
          inGroup port w.1 = true) ∧
      (∀ s1, pin_impl.enable_pullup Device.plain 13 ⟨fun _ => 0, []⟩ = some s1 →
        ∀ w ∈ s1.log.drop ([] : List (Reg × Nat)).length,
          inGroup port w.1 = true) ∧
      (∀ s1, pin_impl.disable_pullup Device.plain 13 ⟨fun _ => 0, []⟩ = some s1 →
        ∀ w ∈ s1.log.drop ([] : List (Reg × Nat)).length,
          inGroup port w.1 = true) :=
  pin_impl_single_write Device.plain 13 ⟨fun _ => 0, []⟩ (by decide)

/-- C16: for every pin `p` of the table, with `e` its entry,
`GetPortByPin p` is PIOA, PIOB, PIOC or PIOD as the bank id of `e` is 0, 1,
2 or 3, and it is not `nullptr`; for any index, `GetPortByPin` returns
`nullptr` only on an entry whose bank id is outside 0..3, and no entry of
the table has such a bank id. -/
theorem GetPortByPin_group (p : Nat) (hp : p < 21) :
    (∃ e, pin_info_array[p]? = some e ∧
      ((e.m_port = 0 ∧ GetPortByPin p = some PioPtr.PIOA) ∨
       (e.m_port = 1 ∧ GetPortByPin p = some PioPtr.PIOB) ∨
       (e.m_port = 2 ∧ GetPortByPin p = some PioPtr.PIOC) ∨
       (e.m_port = 3 ∧ GetPortByPin p = some PioPtr.PIOD))) ∧
    GetPortByPin p ≠ some PioPtr.nullptr ∧
    (∀ q, GetPortByPin q = some PioPtr.nullptr →
      ∃ e, pin_info_array[q]? = some e ∧ e.m_port ∉ [0, 1, 2, 3]) ∧
    (∀ e ∈ pin_info_array, e.m_port ∈ [0, 1, 2, 3]) := by
  have hlen : p < pin_info_array.length := hp
  obtain ⟨e, he⟩ : ∃ e, pin_info_array[p]? = some e :=
    ⟨_, List.getElem?_eq_getElem hlen⟩
  have hport := (pin_info_array_bounds p e he).1
  have hcases : (e.m_port = 0 ∧ GetPortByPin p = some PioPtr.PIOA) ∨
      (e.m_port = 1 ∧ GetPortByPin p = some PioPtr.PIOB) ∨
      (e.m_port = 2 ∧ GetPortByPin p = some PioPtr.PIOC) ∨
      (e.m_port = 3 ∧ GetPortByPin p = some PioPtr.PIOD) := by
    obtain ⟨port, bit⟩ := e
    simp only at hport ⊢
    interval_cases port <;> simp [GetPortByPin, he]
  refine ⟨⟨e, he, hcases⟩, ?_, ?_, by decide⟩
  · rcases hcases with h | h | h | h <;> rw [h.2] <;> decide
  · intro q hq
    unfold GetPortByPin at hq
    cases hf : pin_info_array[q]? with
    | none => rw [hf] at hq; cases hq
    | some f =>
      rw [hf] at hq
      refine ⟨f, rfl, ?_⟩
      simp only [List.mem_cons, List.mem_singleton, List.not_mem_nil, or_false]
      simp only at hq
      split_ifs at hq with h0 h1 h2 h3
      · cases hq
      · cases hq
      · cases hq
      · cases hq
      · tauto

/-- Witness of C16 at pin 13 (bank 1, PIOB). -/
theorem GetPortByPin_group_witness :
    (∃ e, pin_info_array[13]? = some e ∧
      ((e.m_port = 0 ∧ GetPortByPin 13 = some PioPtr.PIOA) ∨
       (e.m_port = 1 ∧ GetPortByPin 13 = some PioPtr.PIOB) ∨
       (e.m_port = 2 ∧ GetPortByPin 13 = some PioPtr.PIOC) ∨
       (e.m_port = 3 ∧ GetPortByPin 13 = some PioPtr.PIOD))) ∧
    GetPortByPin 13 ≠ some PioPtr.nullptr :=
  ⟨(GetPortByPin_group 13 (by decide)).1, (GetPortByPin_group 13 (by decide)).2.1⟩

/-- The low four bits of a baud rate are zero exactly when 16 divides it. -/
theorem IsValidBaudrate_true_iff (r : Nat) :
    IsValidBaudrate r = true ↔ r % 16 = 0 := by
  have h : r &&& 0b1111 = r % 16 := Nat.and_pow_two_sub_one_eq_mod r 4
  simp [IsValidBaudrate, h]

/-- C18 fails at the baud rate 115201 in a build without `DEBUG`: the baud
rate is not a multiple of 16, yet the run-time `EnableBaud` changes the
divider register from 0 to the truncated divider 45. -/
theorem EnableBaud_runtime_loads_truncated_divider :
    IsValidBaudrate 115201 = false ∧
    read (Reg.uart UART UartReg.UART_BRGR) ⟨fun _ => 0, []⟩ = 0 ∧
    (EnableBaud_runtime false Device.plain UART 84000000 115201
        ⟨fun _ => 0, []⟩).map
      (fun s1 => read (Reg.uart UART UartReg.UART_BRGR) s1) = some 45 := by
  refine ⟨by decide, rfl, ?_⟩
  have h : CalculateDivider 84000000 115201 = some 45 := by decide
  simp [EnableBaud_runtime, debug_assert, h, read, write, Device.plain]

/-- C18, amended: in a build without `DEBUG`, for every frequency `m` and
every baud rate `b` that is not a multiple of 16, the run-time `EnableBaud`
is defined and performs one write, of the truncated divider `(m / b) / 16`,
to the baud divider register of `uart`. -/
theorem EnableBaud_runtime_unchecked (dev : Device) (uart : UartPtr)
    (m b : Nat) (s : Machine) (hb : b % 16 ≠ 0) :
    IsValidBaudrate b = false ∧
    EnableBaud_runtime false dev uart m b s =
      some (write dev (Reg.uart uart UartReg.UART_BRGR) ((m / b) / 16) s) := by
  have hb0 : b ≠ 0 := by
    intro h; rw [h] at hb; exact hb rfl
  have hv : IsValidBaudrate b = false := by
    have h := IsValidBaudrate_true_iff b
    cases hc : IsValidBaudrate b with
    | false => rfl
    | true => exact absurd (h.1 hc) hb
  refine ⟨hv, ?_⟩
  simp only [EnableBaud_runtime, debug_assert, CalculateDivider, hb0,
    if_false, Bool.false_eq_true]

/-- Witness of the amended C18 at 84000000 and 115201. -/
theorem EnableBaud_runtime_unchecked_witness :
    IsValidBaudrate 115201 = false ∧
    EnableBaud_runtime false Device.plain UART 84000000 115201
        ⟨fun _ => 0, []⟩ =
      some (write Device.plain (Reg.uart UART UartReg.UART_BRGR)
        ((84000000 / 115201) / 16) ⟨fun _ => 0, []⟩) :=
  EnableBaud_runtime_unchecked Device.plain UART 84000000 115201
    ⟨fun _ => 0, []⟩ (by decide)

/-- C19 fails at the baud rate 115200: `IsValidBaudrate` accepts it, the
divider is 45, and `45 * 16 * 115200` is 82944000, not 84000000. It fails
at 84000000 too: accepted, with the divider 0. -/
theorem IsValidBaudrate_not_exact_115200 :
    IsValidBaudrate 115200 = true ∧
    CalculateDivider 84000000 115200 = some 45 ∧
    45 * 16 * 115200 ≠ 84000000 ∧
    IsValidBaudrate 84000000 = true ∧
    CalculateDivider 84000000 84000000 = some 0 := by
  decide

/-- C19, amended: for every baud rate `b > 0` that `IsValidBaudrate`
accepts, `b` is a multiple of 16 and the divider `cd` at 84000000 is the
truncated quotient, `cd * 16 * b ≤ 84000000 < (cd + 1) * 16 * b`; the
divider is positive and reproduces `b` exactly, `84000000 = cd * 16 * b`,
exactly when `16 * b` divides 84000000. -/
theorem CalculateDivider_valid_baud_truncates (b : Nat) (hb : 0 < b)
    (hv : IsValidBaudrate b = true) :
    b % 16 = 0 ∧
    ∃ cd, CalculateDivider 84000000 b = some cd ∧
      cd * 16 * b ≤ 84000000 ∧ 84000000 < (cd + 1) * 16 * b ∧
      ((0 < cd ∧ 84000000 = cd * 16 * b) ↔ (16 * b) ∣ 84000000) := by
  have hn : 0 < 16 * b := by omega
  have hdef : CalculateDivider 84000000 b = some (84000000 / (16 * b)) := by
    simp only [CalculateDivider, Nat.pos_iff_ne_zero.1 hb, if_false]
    rw [Nat.div_div_eq_div_mul, Nat.mul_comm b 16]
  have hle : 16 * b * (84000000 / (16 * b)) ≤ 84000000 :=
    Nat.mul_div_le 84000000 (16 * b)
  have hlt : 84000000 < 16 * b * (84000000 / (16 * b) + 1) :=
    Nat.lt_mul_div_succ 84000000 hn
  have e1 : 84000000 / (16 * b) * 16 * b =
      16 * b * (84000000 / (16 * b)) := by ring
  have e2 : (84000000 / (16 * b) + 1) * 16 * b =
      16 * b * (84000000 / (16 * b) + 1) := by ring
  refine ⟨(IsValidBaudrate_true_iff b).1 hv, 84000000 / (16 * b), hdef,
    by rw [e1]; exact hle, by rw [e2]; exact hlt, ?_⟩
  constructor
  · rintro ⟨_, heq⟩
    exact ⟨84000000 / (16 * b), heq.trans e1⟩
  · intro hdvd
    have hmul : 16 * b * (84000000 / (16 * b)) = 84000000 :=
      Nat.mul_div_cancel' hdvd
    refine ⟨?_, (e1.trans hmul).symm⟩
    rcases Nat.eq_zero_or_pos (84000000 / (16 * b)) with h0 | hpos
    · rw [h0, Nat.mul_zero] at hmul
      exact absurd hmul (by decide)
    · exact hpos

/-- Witness of the amended C19 at the baud rate 115200. -/
theorem CalculateDivider_valid_baud_truncates_witness :
    115200 % 16 = 0 ∧
    ∃ cd, CalculateDivider 84000000 115200 = some cd ∧
      cd * 16 * 115200 ≤ 84000000 ∧ 84000000 < (cd + 1) * 16 * 115200 ∧
      ((0 < cd ∧ 84000000 = cd * 16 * 115200) ↔ (16 * 115200) ∣ 84000000) :=
  CalculateDivider_valid_baud_truncates 115200 (by decide) (by decide)

/-- C20 fails on a first status value 0 (receiver not ready): `getc` loads
`UART_RHR` right after that status read. On the status values 1, 1, 1, 0
it polls through the three reads with the ready bit set and loads
`UART_RHR` after the read with the bit clear. `putc` on 0, 0, 2 polls until
its ready bit is set. -/
theorem getc_returns_when_not_ready :
    uart_impl.getc 0x41 [0] = some ([0], 0x41) ∧
    uart_impl.getc 0x41 [1, 1, 1, 0] = some ([1, 1, 1, 0], 0x41) ∧
    uart_impl.getc 0x41 [1, 1, 1] = none ∧
    uart_impl.putc 0x41 [0, 0, 2] = some ([0, 0, 2], 0x41) := by
  decide

/-- C21 fails on every state: the three writes of `Disable()` are two to
`PIO_PDR` of PIOA and one to the clock enable register `PMC_PCER0`, none to
the clock disable register `PMC_PCDR0`; in the clock gating harness the UART
bit of the clock status is therefore set after `Disable()`, also right
after `Enable()`. With `ID_PIOA = 11` and `ID_UART = 8`, `Enable()` then
`Disable()` from the all-zero state leaves the clock status at
`(1 << 11) | (1 << 8)`. -/
theorem Disable_writes_clock_enable (k : VendorConstants) (dev : Device)
    (s : Machine) :
    (uart_impl.Disable k dev s).log = s.log ++
      [ (Reg.pio PioPtr.PIOA PioReg.PIO_PDR, k.PIO_PA8 % 2 ^ 32),
        (Reg.pio PioPtr.PIOA PioReg.PIO_PDR, k.PIO_PA9 % 2 ^ 32),
        (Reg.PMC_PCER0, (0x01 <<< k.ID_UART) % 2 ^ 32) ] ∧
    (∃ s1, uart_impl.Enable k Device.clockGate s = some s1 ∧
      read Reg.PMC_PCSR0 (uart_impl.Disable k Device.clockGate s1) &&&
          ((0x01 <<< k.ID_UART) % 2 ^ 32) = (0x01 <<< k.ID_UART) % 2 ^ 32) ∧
    (uart_impl.Enable ⟨11, 8, 256, 512, 4, 8, 16, 32, 64, 128, 2048⟩
        Device.clockGate ⟨fun _ => 0, []⟩).map
      (fun s1 => read Reg.PMC_PCSR0
        (uart_impl.Disable ⟨11, 8, 256, 512, 4, 8, 16, 32, 64, 128, 2048⟩
          Device.clockGate s1)) = some 2304 := by
  refine ⟨?_, ?_, ?_⟩
  · simp only [uart_impl.Disable, write_log, List.append_assoc,
      List.cons_append, List.nil_append]
  · have hdef : ∃ s1, uart_impl.Enable k Device.clockGate s = some s1 := by
      simp only [uart_impl.Enable, EnableBaud_main_115200]
      exact ⟨_, rfl⟩
    obtain ⟨s1, h1⟩ := hdef
    refine ⟨s1, h1, ?_⟩
    simp only [uart_impl.Disable, read, write, Device.clockGate,
      Function.update_same, lor_land_self]
  · simp only [uart_impl.Enable, EnableBaud_main_115200, Option.map_some']
    simp [uart_impl.Disable, ResetTRX, EnableTRX, read, write,
      Device.clockGate, Function.update]

/-- C22 fails at the lengths 8 and 9: the three-bit field holds 0 after
`CharacterLength(8)` and 1 after `CharacterLength(9)`. The lengths 5, 6 and
7 are held, the default constructor holds 5, and `GetCharacterLength`
accepts 8 and 9 as lengths. -/
theorem CharacterLength_8_and_9_not_held :
    (CharacterLength.ofUInt8 8).charLength = 0 ∧
    (CharacterLength.ofUInt8 9).charLength = 1 ∧
    (CharacterLength.ofUInt8 5).charLength = 5 ∧
    (CharacterLength.ofUInt8 6).charLength = 6 ∧
    (CharacterLength.ofUInt8 7).charLength = 7 ∧
    CharacterLength.default.charLength = 5 ∧
    GetCharacterLength 8 = 3 ∧ GetCharacterLength 9 = 4 := by
  decide

/-- C23: for every frequency `m` and every baud rate `b > 0` (so for all
32-bit ones), `CalculateDivider m b` is the floor of the rational
`m / (16 * b)`, which is the natural quotient `m / (16 * b)`, and it is 0
exactly when `m < 16 * b`. -/
theorem CalculateDivider_single_division (m b : Nat) (hb : 0 < b) :
    CalculateDivider m b = some ⌊(m : ℚ) / (((16 * b : ℕ)) : ℚ)⌋₊ ∧
    CalculateDivider m b = some (m / (16 * b)) ∧
    (CalculateDivider m b = some 0 ↔ m < 16 * b) := by
  have hdef : CalculateDivider m b = some (m / (16 * b)) := by
    simp only [CalculateDivider, Nat.pos_iff_ne_zero.1 hb, if_false]
    rw [Nat.div_div_eq_div_mul, Nat.mul_comm b 16]
  have hfloor : ⌊(m : ℚ) / (((16 * b : ℕ)) : ℚ)⌋₊ = m / (16 * b) :=
    Nat.floor_div_eq_div m (16 * b)
  have hpos : 0 < 16 * b := by omega
  refine ⟨by rw [hfloor]; exact hdef, hdef, ?_⟩
  rw [hdef, Option.some.injEq]
  constructor
  · intro h0
    by_contra hlt
    have hle : 16 * b ≤ m := Nat.le_of_not_lt hlt
    have h1 : 1 ≤ m / (16 * b) := (Nat.le_div_iff_mul_le hpos).2 (by omega)
    omega
  · intro hlt
    exact Nat.div_eq_of_lt hlt

/-- Witness of C23 at the frequency 84000000 and the baud rate 115200. -/
theorem CalculateDivider_single_division_witness :
    CalculateDivider 84000000 115200 =
      some ⌊((84000000 : ℕ) : ℚ) / (((16 * 115200 : ℕ)) : ℚ)⌋₊ ∧
    CalculateDivider 84000000 115200 = some (84000000 / (16 * 115200)) ∧
    (CalculateDivider 84000000 115200 = some 0 ↔ 84000000 < 16 * 115200) :=
  CalculateDivider_single_division 84000000 115200 (by decide)

/-- C24: on every list of table pins and every state, `configure_in`,
`configure_out` and `configure_inout` are each `PinSequenceEnable`: they are
defined and reach the same state, so they perform the same register writes;
for every bank with a listed pin the writes of `configure_in` contain the
write of the aggregated mask of the bank to `PIO_OER` of its group. -/
theorem configure_in_out_inout_same (dev : Device) (pins : List Nat)
    (s : Machine) (hp : ∀ p ∈ pins, p < 21) :
    ∃ s1 ws, PinSequenceEnable dev pins s = some s1 ∧
      configure_in dev pins s = some s1 ∧
      configure_out dev pins s = some s1 ∧
      configure_inout dev pins s = some s1 ∧
      s1.log = s.log ++ ws ∧
      ∀ b port, (b, port) ∈ [(0, PioPtr.PIOA), (1, PioPtr.PIOB),
          (2, PioPtr.PIOC), (3, PioPtr.PIOD)] →
        bankTouched b pins = true →
        (Reg.pio port PioReg.PIO_OER, aggregatedMask b pins) ∈ ws := by
  obtain ⟨s1, hrun, hlog⟩ := PinSequenceEnable_writes dev pins s hp
  refine ⟨s1, _, hrun, hrun, hrun, hrun, hlog, ?_⟩
  intro b port hbp ht
  have hne := (aggregatedMask_ne_zero_iff b pins).2 ht
  have hmem : (Reg.pio port PioReg.PIO_OER, aggregatedMask b pins) ∈
      groupWrites port (aggregatedMask b pins) := by
    simp [groupWrites, hne]
  simp only [List.mem_cons, List.mem_singleton, List.not_mem_nil, or_false,
    Prod.mk.injEq] at hbp
  simp only [List.mem_append]
  rcases hbp with ⟨rfl, rfl⟩ | ⟨rfl, rfl⟩ | ⟨rfl, rfl⟩ | ⟨rfl, rfl⟩
  · exact Or.inl hmem
  · exact Or.inr (Or.inl hmem)
  · exact Or.inr (Or.inr (Or.inl hmem))
  · exact Or.inr (Or.inr (Or.inr (Or.inl hmem)))

/-- Witness of C24 at the pins 0, 13 and 2, from the all-zero state. -/
theorem configure_in_out_inout_same_witness :
    ∃ s1 ws, PinSequenceEnable Device.plain [0, 13, 2] ⟨fun _ => 0, []⟩ =
        some s1 ∧
      configure_in Device.plain [0, 13, 2] ⟨fun _ => 0, []⟩ = some s1 ∧
      configure_out Device.plain [0, 13, 2] ⟨fun _ => 0, []⟩ = some s1 ∧
      configure_inout Device.plain [0, 13, 2] ⟨fun _ => 0, []⟩ = some s1 ∧
      s1.log = [] ++ ws ∧
      ∀ b port, (b, port) ∈ [(0, PioPtr.PIOA), (1, PioPtr.PIOB),
          (2, PioPtr.PIOC), (3, PioPtr.PIOD)] →
        bankTouched b [0, 13, 2] = true →
        (Reg.pio port PioReg.PIO_OER, aggregatedMask b [0, 13, 2]) ∈ ws :=
  configure_in_out_inout_same Device.plain [0, 13, 2] ⟨fun _ => 0, []⟩
    (by decide)

/-- C25 fails for the overload with a run-time baud rate when its template
argument `t_uart` is another peripheral than the function argument `uart`:
at 84000000 and 115200, with `uart` the peripheral 0 and `t_uart` the
peripheral 1, the two other overloads write the divider 45 to the divider
register of peripheral 0, while this overload writes it to the divider
register of peripheral 1 and leaves that of peripheral 0 at 0. -/
theorem EnableBaud_baud_writes_template_peripheral :
    (EnableBaud Device.plain 84000000 115200 0 ⟨fun _ => 0, []⟩).map
      (fun s1 => s1.log) = some [(Reg.uart 0 UartReg.UART_BRGR, 45)] ∧
    (EnableBaud_runtime false Device.plain 0 84000000 115200
        ⟨fun _ => 0, []⟩).map
      (fun s1 => s1.log) = some [(Reg.uart 0 UartReg.UART_BRGR, 45)] ∧
    (EnableBaud_baud false Device.plain 84000000 1 0 115200
        ⟨fun _ => 0, []⟩).map
      (fun s1 => s1.log) = some [(Reg.uart 1 UartReg.UART_BRGR, 45)] ∧
    (EnableBaud_baud false Device.plain 84000000 1 0 115200
        ⟨fun _ => 0, []⟩).map
      (fun s1 => read (Reg.uart 0 UartReg.UART_BRGR) s1) = some 0 := by
  have h1 : ¬ FromFrequencyToPrescalerSelector 84000000 = -1 := by decide
  have h2 : ¬ IsValidBaudrate 115200 = false := by decide
  have h3 : CalculateDivider 84000000 115200 = some 45 := by decide
  refine ⟨?_, ?_, ?_, ?_⟩
  · rw [EnableBaud, if_neg h1, if_neg h2, h3]; rfl
  · simp only [EnableBaud_runtime, debug_assert, h3]; rfl
  · rw [EnableBaud_baud, if_neg h1]
    simp only [debug_assert, h3]; rfl
  · rw [EnableBaud_baud, if_neg h1]
    simp [debug_assert, h3, read, write, Device.plain]

end arduino_due
end hwstl
